import Mathlib

/-!
Verification development for the SportsCSV interval classifier
(`grouped_behavior_with_totals` in `app.py`) and its surrounding batch loop.

The pandas pipeline is embedded shallowly over exact rationals:
timestamps are epoch seconds (`Int`), numeric columns are `ℚ`, and the
`errors="coerce"` column coercions are modelled by `Option` fields where
`none` stands for NaT/NaN.  `Series.round` (numpy rounding, ties to even)
is modelled exactly on `ℚ`.
-/

namespace SportsCSV

/-- One raw record of the semicolon-separated event log, after the column
coercions of `app.py` lines 26-31: `pd.to_datetime(..., errors="coerce")` and
`pd.to_numeric(..., errors="coerce")` yield `none` for an unparsable value.
`time` is the parsed timestamp in epoch seconds. -/
structure RawRow where
  time : Option Int
  duration : Option ℚ
  eventType : Option ℚ
  steps : Option Int
deriving DecidableEq

/-- A row surviving the cleaning of `app.py` lines 26-35: all of
`Time_formatted`, `Duration (s)`, `Event Type` parsed, duration positive,
step count defaulted to 0 when unparsable. -/
structure CleanRow where
  time : Int
  duration : ℚ
  eventType : ℚ
  steps : Int
deriving DecidableEq, Inhabited

/-- Intermediate row after the step-count column has been filled:
line 29-32, `pd.to_numeric(...).fillna(0).astype(int)`. -/
structure CoercedRow where
  time : Option Int
  duration : Option ℚ
  eventType : Option ℚ
  steps : Int
deriving DecidableEq

/-- Line 29-32: fill an unparsable `Cumulative Step Count` with 0. -/
def coerceSteps (r : RawRow) : CoercedRow :=
  ⟨r.time, r.duration, r.eventType, r.steps.getD 0⟩

/-- Line 34: `df.dropna(subset=["Time_formatted", "Duration (s)", "Event Type"])`. -/
def dropnaRow (r : CoercedRow) : Bool :=
  r.time.isSome && r.duration.isSome && r.eventType.isSome

/-- Line 35: `df = df[df["Duration (s)"] > 0]` (NaN durations are already gone). -/
def posDuration (r : CoercedRow) : Bool :=
  decide (0 < r.duration.getD 0)

/-- Unwrap the option fields of a row that passed `dropnaRow`. -/
def finishRow (r : CoercedRow) : CleanRow :=
  ⟨r.time.getD 0, r.duration.getD 0, r.eventType.getD 0, r.steps⟩

/-- The cleaned row sequence: lines 26-35 of `app.py` in source order. -/
def cleanRows (l : List RawRow) : List CleanRow :=
  (((l.map coerceSteps).filter dropnaRow).filter posDuration).map finishRow

/-- Tail of the clamped forward differences: each element is
`max 0 (current - previous)`. -/
def diffsFrom (prev : Int) : List Int → List Int
  | [] => []
  | s :: rest => max 0 (s - prev) :: diffsFrom s rest

/-- Line 38: `df["Cumulative Step Count"].diff().fillna(0).clip(lower=0)`
over the cleaned sequence.  The first row's difference is NaN, filled
with 0; negative differences are clamped to 0. -/
def stepDiffs : List Int → List Int
  | [] => []
  | s :: rest => 0 :: diffsFrom s rest

/-- Each cleaned row paired with its per-row step delta, the two derived
columns the grouping acts on. -/
def pairedRows (rows : List CleanRow) : List (CleanRow × Int) :=
  rows.zip (stepDiffs (rows.map fun r => r.steps))

/-- Grouping key of line 37: the row's `Event Type`. -/
def rowKey (p : CleanRow × Int) : ℚ :=
  p.1.eventType

/-- Line 37 + `groupby("Event_Group")`: the cumulative sum of the
change flags `Event Type != Event Type.shift()` assigns one id per maximal
run of consecutive equal event types, and grouping by that increasing id
partitions the cleaned sequence into those runs in order. -/
def groupRuns : List (CleanRow × Int) → List (List (CleanRow × Int))
  | [] => []
  | p :: rest =>
    match groupRuns rest with
    | [] => [[p]]
    | g :: gs =>
      if rowKey p = rowKey (g.headD p) then (p :: g) :: gs else [p] :: g :: gs

/-- The grouped record of lines 40-49: one summary per run. -/
structure Interval where
  time : Int
  duration : ℚ
  eventType : ℚ
  lastSteps : Int
  steps : Int
deriving DecidableEq, Inhabited

/-- Default pair used by the total `headD`/`getLastD` accessors
(groups produced by `groupRuns` are never empty). -/
def dfltPair : CleanRow × Int :=
  (default, 0)

/-- Lines 40-49: `agg {Time_formatted: first, Duration (s): sum,
Event Type: first, Cumulative Step Count: last}` together with
`Steps = groupby("Event_Group")["Step_Diff"].sum()`. -/
def mkInterval (g : List (CleanRow × Int)) : Interval :=
  { time := (g.headD dfltPair).1.time
    duration := (g.map fun p => p.1.duration).sum
    eventType := (g.headD dfltPair).1.eventType
    lastSteps := (g.getLastD dfltPair).1.steps
    steps := (g.map fun p => p.2).sum }

/-- The intervals produced from a cleaned row sequence (lines 37-49). -/
def intervalsOf (rows : List CleanRow) : List Interval :=
  (groupRuns (pairedRows rows)).map mkInterval

/-- Floor of a rational, computed on its normalised numerator and
denominator (kernel-computable form of `Int.floor`). -/
def ratFloor (x : ℚ) : Int :=
  Int.fdiv x.num x.den

/-- Round a rational to the nearest integer, ties to even: the rounding
used by `numpy.round` and hence by `Series.round`. -/
def roundHalfEven (x : ℚ) : Int :=
  if x - ratFloor x < 1 / 2 then ratFloor x
  else if 1 / 2 < x - ratFloor x then ratFloor x + 1
  else if ratFloor x % 2 = 0 then ratFloor x else ratFloor x + 1

/-- Round a rational to `d` decimal places, ties to even (`Series.round(d)`). -/
def roundTo (d : Nat) (x : ℚ) : ℚ :=
  (roundHalfEven (x * 10 ^ d) : ℚ) / 10 ^ d

/-- Line 50: `Doubled Steps = Steps * 2`. -/
def doubledSteps (iv : Interval) : Int :=
  iv.steps * 2

/-- Line 51: `Minutes = (Duration (s) / 60).round(3)`. -/
def minutes (iv : Interval) : ℚ :=
  roundTo 3 (iv.duration / 60)

/-- Lines 53-55: `(Doubled Steps / Minutes).replace([inf, -inf], 0).fillna(0)
.round(2)`.  A zero `Minutes` makes the float quotient ±inf (or NaN for 0/0),
which the replace/fillna pair maps to 0 before rounding. -/
def stepsPerMinute (iv : Interval) : ℚ :=
  roundTo 2 (if minutes iv = 0 then 0 else (doubledSteps iv : ℚ) / minutes iv)

/-- Lines 64-77: the `Behaviour` closure over the two thresholds. -/
def behaviour_label (lipa_max mpa_max : ℚ) (eventType spm : ℚ) : String :=
  if eventType = 0 then "SED"
  else if eventType = 1 then "STAND"
  else if eventType = 2 then
    if spm < lipa_max then "LIPA"
    else if lipa_max ≤ spm ∧ spm ≤ mpa_max then "MPA"
    else "VPA"
  else "UNKNOWN"

/-- Lines 84-93: the `Activity Category` closure over the two thresholds. -/
def activity_category (lipa_max mpa_max : ℚ) (eventType spm : ℚ) : String :=
  if eventType = 2 then
    if spm < lipa_max then "LPA"
    else if lipa_max ≤ spm ∧ spm ≤ mpa_max then "MIVA"
    else "HPA"
  else ""

/-- One row of the final table (lines 98-108).  `time` is the
`Unix Timestamp` column; the formatted `Time` string is presentation of the
same instant and is not modelled separately. -/
structure OutRow where
  time : Int
  eventDuration : ℚ
  behaviour : String
  steps : Int
  doubledSteps : Int
  minutes : ℚ
  stepsPerMinute : ℚ
  activityCategory : String
deriving DecidableEq

/-- Lines 50-108: derive the output columns of one interval. -/
def classifyInterval (lipa_max mpa_max : ℚ) (iv : Interval) : OutRow :=
  { time := iv.time
    eventDuration := iv.duration
    behaviour := behaviour_label lipa_max mpa_max iv.eventType (stepsPerMinute iv)
    steps := iv.steps
    doubledSteps := doubledSteps iv
    minutes := minutes iv
    stepsPerMinute := stepsPerMinute iv
    activityCategory := activity_category lipa_max mpa_max iv.eventType (stepsPerMinute iv) }

/-- Lines 37-108 applied to an already-cleaned row sequence. -/
def classifyCleaned (lipa_max mpa_max : ℚ) (rows : List CleanRow) : List OutRow :=
  (intervalsOf rows).map (classifyInterval lipa_max mpa_max)

/-- The whole transformation of `grouped_behavior_with_totals` on the parsed
row list: clean, group, derive, classify. -/
def grouped_behavior_with_totals (lipa_max mpa_max : ℚ) (raw : List RawRow) : List OutRow :=
  classifyCleaned lipa_max mpa_max (cleanRows raw)

/-- An input file as the classifier sees it: which of the four required
columns are present, and the parsed rows. -/
structure InputTable where
  hasTimeCol : Bool
  hasDurationCol : Bool
  hasEventTypeCol : Bool
  hasStepCountCol : Bool
  rows : List RawRow
deriving DecidableEq

/-- All four required columns are present. -/
def allCols (tbl : InputTable) : Bool :=
  tbl.hasTimeCol && tbl.hasDurationCol && tbl.hasEventTypeCol && tbl.hasStepCountCol

/-- The only failure the classifier itself produces: dereferencing a missing
column (lines 26-31) raises a pandas `KeyError`.  The code defines no
`MalformedInputError` and performs no explicit empty-table check; every
operation of the pipeline applied to a table with zero surviving rows yields
an empty table. -/
inductive ClassifyError where
  | keyError : ClassifyError
deriving DecidableEq

/-- `grouped_behavior_with_totals` as a fallible operation on one input
table: a missing required column raises, otherwise the transformation runs. -/
def classifyTable (lipa_max mpa_max : ℚ) (tbl : InputTable) :
    Except ClassifyError (List OutRow) :=
  if allCols tbl then
    Except.ok (grouped_behavior_with_totals lipa_max mpa_max tbl.rows)
  else
    Except.error ClassifyError.keyError

/-- One iteration of the batch loop (lines 377-399): a success bumps the
counter, a failure is appended with the file's name and the loop continues. -/
def batchStep (lipa_max mpa_max : ℚ) (acc : Nat × List (String × ClassifyError))
    (f : String × InputTable) : Nat × List (String × ClassifyError) :=
  match classifyTable lipa_max mpa_max f.2 with
  | Except.ok _ => (acc.1 + 1, acc.2)
  | Except.error e => (acc.1, acc.2 ++ [(f.1, e)])

/-- The batch loop over all CSV files (lines 373-399): returns the number of
processed files and the per-file failures in encounter order. -/
def runBatch (lipa_max mpa_max : ℚ) (files : List (String × InputTable)) :
    Nat × List (String × ClassifyError) :=
  files.foldl (batchStep lipa_max mpa_max) (0, [])

/-- Lines 404-406: only the first 10 failures are displayed. -/
def reportedFailures (errs : List (String × ClassifyError)) : List (String × ClassifyError) :=
  errs.take 10

/-- Specification-side row-keep predicate (§3 of the design): timestamp,
duration and event type all parse and the duration is strictly positive. -/
def keepRowSpec (r : RawRow) : Bool :=
  r.time.isSome && r.duration.isSome && r.eventType.isSome &&
    decide (0 < r.duration.getD 0)

/-- Specification-side view of a kept row: fields unwrapped, unparsable step
count treated as 0. -/
def cleanOfSpec (r : RawRow) : CleanRow :=
  ⟨r.time.getD 0, r.duration.getD 0, r.eventType.getD 0, r.steps.getD 0⟩

/-- Specification-side count of maximal runs of equal consecutive values. -/
def runCount : List ℚ → Nat
  | [] => 0
  | [_] => 1
  | a :: b :: rest => (if a = b then 0 else 1) + runCount (b :: rest)

/-- Cleaned rows of the end-to-end example of the specification:
durations 10, 20, 5; event types 2, 2, 0; cumulative steps 0, 5, 5. -/
def exampleRows : List CleanRow :=
  [⟨0, 10, 2, 0⟩, ⟨10, 20, 2, 5⟩, ⟨30, 5, 0, 5⟩]

/-- The end-to-end example as raw rows (every field parses). -/
def exampleRaw : List RawRow :=
  [⟨some 0, some 10, some 2, some 0⟩, ⟨some 10, some 20, some 2, some 5⟩,
   ⟨some 30, some 5, some 0, some 5⟩]

/-- A table that has every required column but whose single row is dropped
by cleaning, because its `Duration (s)` is 0. -/
def zeroSurvivorTable : InputTable :=
  ⟨true, true, true, true, [⟨some 0, some 0, some 2, some 7⟩]⟩

theorem ratFloor_eq_floor (x : ℚ) : ratFloor x = ⌊x⌋ := by
  rw [Rat.floor_def]
  exact Int.fdiv_eq_ediv _ (Int.natCast_nonneg x.den)

theorem roundHalfEven_nonneg {x : ℚ} (hx : 0 ≤ x) : 0 ≤ roundHalfEven x := by
  have h : (0 : Int) ≤ ratFloor x := by
    rw [ratFloor_eq_floor]
    exact Int.floor_nonneg.mpr hx
  unfold roundHalfEven
  split_ifs <;> omega

theorem roundHalfEven_zero : roundHalfEven 0 = 0 := by
  have h : ratFloor (0 : ℚ) = 0 := by
    rw [ratFloor_eq_floor]
    exact Int.floor_zero
  norm_num [roundHalfEven, h]

theorem roundTo_nonneg (d : Nat) {x : ℚ} (hx : 0 ≤ x) : 0 ≤ roundTo d x := by
  unfold roundTo
  apply div_nonneg _ (by positivity)
  exact_mod_cast roundHalfEven_nonneg (by positivity)

theorem roundTo_zero (d : Nat) : roundTo d 0 = 0 := by
  rw [roundTo, zero_mul, roundHalfEven_zero]
  norm_num

theorem diffsFrom_length (p : Int) (l : List Int) : (diffsFrom p l).length = l.length := by
  induction l generalizing p with
  | nil => rfl
  | cons s rest ih => simp [diffsFrom, ih]

theorem stepDiffs_length (l : List Int) : (stepDiffs l).length = l.length := by
  cases l with
  | nil => rfl
  | cons s rest => simp [stepDiffs, diffsFrom_length]

theorem diffsFrom_nonneg (p : Int) (l : List Int) : ∀ x ∈ diffsFrom p l, 0 ≤ x := by
  induction l generalizing p with
  | nil => intro x hx; cases hx
  | cons s rest ih =>
    intro x hx
    rcases List.mem_cons.mp hx with h | h
    · rw [h]; exact le_max_left 0 _
    · exact ih s x h

theorem stepDiffs_nonneg (l : List Int) : ∀ x ∈ stepDiffs l, 0 ≤ x := by
  cases l with
  | nil => intro x hx; cases hx
  | cons s rest =>
    intro x hx
    rcases List.mem_cons.mp hx with h | h
    · rw [h]
    · exact diffsFrom_nonneg s rest x h

theorem diffsFrom_getD (p : Int) (l : List Int) : ∀ i, i < l.length →
    (diffsFrom p l).getD i 0 = max 0 (l.getD i 0 - (p :: l).getD i 0) := by
  induction l generalizing p with
  | nil => intro i h; cases h
  | cons s rest ih =>
    intro i h
    cases i with
    | zero => rfl
    | succ j =>
      have hj : j < rest.length := Nat.lt_of_succ_lt_succ h
      simpa [diffsFrom] using ih s j hj

theorem stepDiffs_getD (l : List Int) (i : Nat) (h : i + 1 < l.length) :
    (stepDiffs l).getD (i + 1) 0 = max 0 (l.getD (i + 1) 0 - l.getD i 0) := by
  cases l with
  | nil => cases h
  | cons s rest =>
    have hi : i < rest.length := Nat.lt_of_succ_lt_succ h
    simpa [stepDiffs] using diffsFrom_getD s rest i hi

theorem stepDiffs_headD {l : List Int} (h : l ≠ []) : (stepDiffs l).headD 1 = 0 := by
  cases l with
  | nil => exact absurd rfl h
  | cons s rest => rfl

theorem groupRuns_cons (p : CleanRow × Int) (rest : List (CleanRow × Int)) :
    groupRuns (p :: rest) =
      match groupRuns rest with
      | [] => [[p]]
      | g :: gs =>
        if rowKey p = rowKey (g.headD p) then (p :: g) :: gs else [p] :: g :: gs :=
  rfl

theorem groupRuns_flatten (l : List (CleanRow × Int)) : (groupRuns l).flatten = l := by
  induction l with
  | nil => rfl
  | cons p rest ih =>
    rw [groupRuns_cons]
    cases hgr : groupRuns rest with
    | nil =>
      have hrest : rest = [] := by
        rw [hgr] at ih
        simpa using ih.symm
      simp [hrest]
    | cons g gs =>
      rw [hgr] at ih
      by_cases hk : rowKey p = rowKey (g.headD p)
      · show ((if rowKey p = rowKey (g.headD p) then (p :: g) :: gs
            else [p] :: g :: gs)).flatten = p :: rest
        rw [if_pos hk]
        simp only [List.flatten_cons] at ih ⊢
        rw [List.cons_append, ih]
      · show ((if rowKey p = rowKey (g.headD p) then (p :: g) :: gs
            else [p] :: g :: gs)).flatten = p :: rest
        rw [if_neg hk]
        simp only [List.flatten_cons] at ih ⊢
        rw [List.singleton_append, ih]

theorem groupRuns_ne_nil (l : List (CleanRow × Int)) : ∀ g ∈ groupRuns l, g ≠ [] := by
  induction l with
  | nil => intro g hg; cases hg
  | cons p rest ih =>
    intro g hg
    rw [groupRuns_cons] at hg
    cases hgr : groupRuns rest with
    | nil =>
      rw [hgr] at hg
      rcases List.mem_singleton.mp hg with rfl
      exact List.cons_ne_nil _ _
    | cons g0 gs =>
      rw [hgr] at hg
      have hg2 : g ∈ (if rowKey p = rowKey (g0.headD p) then (p :: g0) :: gs
          else [p] :: g0 :: gs) := hg
      by_cases hk : rowKey p = rowKey (g0.headD p)
      · rw [if_pos hk] at hg2
        rcases List.mem_cons.mp hg2 with h | h
        · rw [h]; exact List.cons_ne_nil _ _
        · exact ih g (by rw [hgr]; exact List.mem_cons_of_mem _ h)
      · rw [if_neg hk] at hg2
        rcases List.mem_cons.mp hg2 with h | h
        · rw [h]; exact List.cons_ne_nil _ _
        · exact ih g (by rw [hgr]; exact h)

theorem groupRuns_cons_head (p : CleanRow × Int) (rest : List (CleanRow × Int)) :
    ∃ t gs, groupRuns (p :: rest) = (p :: t) :: gs := by
  rw [groupRuns_cons]
  cases hgr : groupRuns rest with
  | nil => exact ⟨[], [], rfl⟩
  | cons g gs =>
    by_cases hk : rowKey p = rowKey (g.headD p)
    · refine ⟨g, gs, ?_⟩
      show (if rowKey p = rowKey (g.headD p) then (p :: g) :: gs
        else [p] :: g :: gs) = (p :: g) :: gs
      rw [if_pos hk]
    · refine ⟨[], g :: gs, ?_⟩
      show (if rowKey p = rowKey (g.headD p) then (p :: g) :: gs
        else [p] :: g :: gs) = [p] :: g :: gs
      rw [if_neg hk]

theorem groupRuns_length (l : List (CleanRow × Int)) :
    (groupRuns l).length = runCount (l.map rowKey) := by
  induction l with
  | nil => rfl
  | cons p rest ih =>
    cases rest with
    | nil => rfl
    | cons q rest2 =>
      obtain ⟨t, gs, hgr⟩ := groupRuns_cons_head q rest2
      rw [hgr] at ih
      have hcond : rowKey ((q :: t).headD p) = rowKey q := by
        rw [List.headD_cons]
      by_cases hk : rowKey p = rowKey q
      · have hstep : groupRuns (p :: q :: rest2) = (p :: q :: t) :: gs := by
          rw [groupRuns_cons, hgr]
          show (if rowKey p = rowKey ((q :: t).headD p) then (p :: q :: t) :: gs
            else [p] :: (q :: t) :: gs) = _
          rw [List.headD_cons, if_pos hk]
        rw [hstep]
        calc ((p :: q :: t) :: gs).length = ((q :: t) :: gs).length := by simp
          _ = runCount ((q :: rest2).map rowKey) := ih
          _ = runCount ((p :: q :: rest2).map rowKey) := by simp [runCount, hk]
      · have hstep : groupRuns (p :: q :: rest2) = [p] :: (q :: t) :: gs := by
          rw [groupRuns_cons, hgr]
          show (if rowKey p = rowKey ((q :: t).headD p) then (p :: q :: t) :: gs
            else [p] :: (q :: t) :: gs) = _
          rw [List.headD_cons, if_neg hk]
        rw [hstep]
        calc ([p] :: (q :: t) :: gs).length = ((q :: t) :: gs).length + 1 := by simp
          _ = runCount ((q :: rest2).map rowKey) + 1 := by rw [ih]
          _ = runCount ((p :: q :: rest2).map rowKey) := by
              simp [runCount, hk, Nat.add_comm]

theorem pairedRows_map_fst (rows : List CleanRow) : (pairedRows rows).map Prod.fst = rows := by
  apply List.map_fst_zip
  rw [stepDiffs_length, List.length_map]

theorem pairedRows_map_snd (rows : List CleanRow) :
    (pairedRows rows).map Prod.snd = stepDiffs (rows.map fun r => r.steps) := by
  apply List.map_snd_zip
  rw [stepDiffs_length, List.length_map]

theorem groupRuns_key_const (l : List (CleanRow × Int)) :
    ∀ g ∈ groupRuns l, ∀ x ∈ g, ∀ y ∈ g, rowKey x = rowKey y := by
  induction l with
  | nil => intro g hg; cases hg
  | cons p rest ih =>
    intro g hg
    rw [groupRuns_cons] at hg
    cases hgr : groupRuns rest with
    | nil =>
      rw [hgr] at hg
      rcases List.mem_singleton.mp hg with rfl
      intro x hx y hy
      rcases List.mem_singleton.mp hx with rfl
      rcases List.mem_singleton.mp hy with rfl
      rfl
    | cons g0 gs =>
      rw [hgr] at hg
      have hg2 : g ∈ (if rowKey p = rowKey (g0.headD p) then (p :: g0) :: gs
          else [p] :: g0 :: gs) := hg
      have hg0mem : g0 ∈ groupRuns rest := by rw [hgr]; exact List.mem_cons_self _ _
      by_cases hk : rowKey p = rowKey (g0.headD p)
      · rw [if_pos hk] at hg2
        rcases List.mem_cons.mp hg2 with h | h
        · subst h
          have hpg0 : ∀ x ∈ g0, rowKey x = rowKey p := by
            intro x hx
            cases g0 with
            | nil => cases hx
            | cons q t =>
              have h1 : rowKey x = rowKey q := ih _ hg0mem x hx q (List.mem_cons_self _ _)
              rw [h1, hk, List.headD_cons]
          intro x hx y hy
          rcases List.mem_cons.mp hx with rfl | hx2 <;>
            rcases List.mem_cons.mp hy with rfl | hy2
          · rfl
          · rw [hpg0 y hy2]
          · rw [hpg0 x hx2]
          · rw [hpg0 x hx2, hpg0 y hy2]
        · exact ih g (by rw [hgr]; exact List.mem_cons_of_mem _ h)
      · rw [if_neg hk] at hg2
        rcases List.mem_cons.mp hg2 with h | h
        · subst h
          intro x hx y hy
          rcases List.mem_singleton.mp hx with rfl
          rcases List.mem_singleton.mp hy with rfl
          rfl
        · exact ih g (by rw [hgr]; exact h)

theorem sum_over_groups {γ : Type} [AddCommMonoid γ] (L : List (List (CleanRow × Int)))
    (f : CleanRow × Int → γ) :
    (L.map fun g => (g.map f).sum).sum = (L.flatten.map f).sum := by
  induction L with
  | nil => rfl
  | cons g gs ih => simp [ih]

theorem mem_of_mem_groupRuns {l g : List (CleanRow × Int)} {x : CleanRow × Int}
    (hg : g ∈ groupRuns l) (hx : x ∈ g) : x ∈ l := by
  rw [← groupRuns_flatten l]
  exact List.mem_flatten_of_mem hg hx

theorem mem_pairedRows_fst {rows : List CleanRow} {p : CleanRow × Int}
    (hp : p ∈ pairedRows rows) : p.1 ∈ rows :=
  (List.of_mem_zip (show (p.1, p.2) ∈ _ from hp)).1

theorem mem_pairedRows_snd {rows : List CleanRow} {p : CleanRow × Int}
    (hp : p ∈ pairedRows rows) : p.2 ∈ stepDiffs (rows.map fun r => r.steps) :=
  (List.of_mem_zip (show (p.1, p.2) ∈ _ from hp)).2

theorem cleanRows_duration_pos (raw : List RawRow) :
    ∀ r ∈ cleanRows raw, 0 < r.duration := by
  intro r hr
  unfold cleanRows at hr
  rcases List.mem_map.mp hr with ⟨c, hc, rfl⟩
  have hpos : posDuration c = true := (List.mem_filter.mp hc).2
  have h : 0 < c.duration.getD 0 := of_decide_eq_true hpos
  exact h

theorem interval_steps_nonneg (rows : List CleanRow) :
    ∀ iv ∈ intervalsOf rows, 0 ≤ iv.steps := by
  intro iv hiv
  rcases List.mem_map.mp hiv with ⟨g, hg, rfl⟩
  show 0 ≤ (g.map fun p => p.2).sum
  apply List.sum_nonneg
  intro x hx
  rcases List.mem_map.mp hx with ⟨p, hp, rfl⟩
  exact stepDiffs_nonneg _ _ (mem_pairedRows_snd (mem_of_mem_groupRuns hg hp))

theorem interval_duration_nonneg (raw : List RawRow) :
    ∀ iv ∈ intervalsOf (cleanRows raw), 0 ≤ iv.duration := by
  intro iv hiv
  rcases List.mem_map.mp hiv with ⟨g, hg, rfl⟩
  show (0 : ℚ) ≤ (g.map fun p => p.1.duration).sum
  apply List.sum_nonneg
  intro x hx
  rcases List.mem_map.mp hx with ⟨p, hp, rfl⟩
  exact le_of_lt (cleanRows_duration_pos raw p.1
    (mem_pairedRows_fst (mem_of_mem_groupRuns hg hp)))

theorem minutes_nonneg {iv : Interval} (hd : 0 ≤ iv.duration) : 0 ≤ minutes iv := by
  unfold minutes
  exact roundTo_nonneg 3 (div_nonneg hd (by norm_num))

theorem stepsPerMinute_nonneg {iv : Interval} (hs : 0 ≤ iv.steps) (hd : 0 ≤ iv.duration) :
    0 ≤ stepsPerMinute iv := by
  unfold stepsPerMinute
  apply roundTo_nonneg
  by_cases hm : minutes iv = 0
  · rw [if_pos hm]
  · rw [if_neg hm]
    apply div_nonneg
    · have h2 : (0 : Int) ≤ doubledSteps iv := by unfold doubledSteps; omega
      exact_mod_cast h2
    · exact minutes_nonneg hd

theorem stepsPerMinute_eq_round_div (iv : Interval) :
    stepsPerMinute iv = roundTo 2 ((doubledSteps iv : ℚ) / minutes iv) := by
  unfold stepsPerMinute
  by_cases hm : minutes iv = 0
  · rw [if_pos hm, hm, div_zero]
  · rw [if_neg hm]

theorem behaviour_label_sed (l m spm : ℚ) : behaviour_label l m 0 spm = "SED" := by
  simp [behaviour_label]

theorem behaviour_label_stand (l m spm : ℚ) : behaviour_label l m 1 spm = "STAND" := by
  norm_num [behaviour_label]

theorem behaviour_label_unknown (l m et spm : ℚ) (h0 : et ≠ 0) (h1 : et ≠ 1) (h2 : et ≠ 2) :
    behaviour_label l m et spm = "UNKNOWN" := by
  simp [behaviour_label, h0, h1, h2]

theorem behaviour_label_lipa (l m spm : ℚ) (h : spm < l) :
    behaviour_label l m 2 spm = "LIPA" := by
  norm_num [behaviour_label, h]

theorem behaviour_label_mpa (l m spm : ℚ) (h1 : l ≤ spm) (h2 : spm ≤ m) :
    behaviour_label l m 2 spm = "MPA" := by
  have hnl : ¬spm < l := not_lt.mpr h1
  norm_num [behaviour_label, hnl, h1, h2]

theorem behaviour_label_vpa (l m spm : ℚ) (hlm : l ≤ m) (h : m < spm) :
    behaviour_label l m 2 spm = "VPA" := by
  have h1 : ¬spm < l := not_lt.mpr (le_trans hlm (le_of_lt h))
  have h2 : ¬(l ≤ spm ∧ spm ≤ m) := fun hc => absurd h (not_lt.mpr hc.2)
  norm_num [behaviour_label, h1, h2]

theorem activity_category_empty (l m et spm : ℚ) (h : et ≠ 2) :
    activity_category l m et spm = "" := by
  simp [activity_category, h]

theorem activity_category_lpa (l m spm : ℚ) (h : spm < l) :
    activity_category l m 2 spm = "LPA" := by
  norm_num [activity_category, h]

theorem activity_category_miva (l m spm : ℚ) (h1 : l ≤ spm) (h2 : spm ≤ m) :
    activity_category l m 2 spm = "MIVA" := by
  have hnl : ¬spm < l := not_lt.mpr h1
  norm_num [activity_category, hnl, h1, h2]

theorem activity_category_hpa (l m spm : ℚ) (hlm : l ≤ m) (h : m < spm) :
    activity_category l m 2 spm = "HPA" := by
  have h1 : ¬spm < l := not_lt.mpr (le_trans hlm (le_of_lt h))
  have h2 : ¬(l ≤ spm ∧ spm ≤ m) := fun hc => absurd h (not_lt.mpr hc.2)
  norm_num [activity_category, h1, h2]

theorem keepRowSpec_eq (r : RawRow) :
    keepRowSpec r = (dropnaRow (coerceSteps r) && posDuration (coerceSteps r)) :=
  rfl

theorem cleanRows_eq_filter_map (raw : List RawRow) :
    cleanRows raw = (raw.filter keepRowSpec).map cleanOfSpec := by
  induction raw with
  | nil => rfl
  | cons r l ih =>
    show (((coerceSteps r :: l.map coerceSteps).filter dropnaRow).filter
        posDuration).map finishRow = ((r :: l).filter keepRowSpec).map cleanOfSpec
    cases h1 : dropnaRow (coerceSteps r) with
    | false =>
      rw [List.filter_cons_of_neg (ne_true_of_eq_false h1)]
      have hk : keepRowSpec r = false := by rw [keepRowSpec_eq, h1, Bool.false_and]
      rw [List.filter_cons_of_neg (ne_true_of_eq_false hk)]
      exact ih
    | true =>
      rw [List.filter_cons_of_pos h1]
      cases h2 : posDuration (coerceSteps r) with
      | false =>
        rw [List.filter_cons_of_neg (ne_true_of_eq_false h2)]
        have hk : keepRowSpec r = false := by rw [keepRowSpec_eq, h1, h2, Bool.and_false]
        rw [List.filter_cons_of_neg (ne_true_of_eq_false hk)]
        exact ih
      | true =>
        rw [List.filter_cons_of_pos h2]
        have hk : keepRowSpec r = true := by rw [keepRowSpec_eq, h1, h2]; rfl
        rw [List.filter_cons_of_pos hk, List.map_cons, List.map_cons]
        exact congrArg₂ List.cons rfl ih

theorem runBatch_loop (lipa_max mpa_max : ℚ) (files : List (String × InputTable)) :
    ∀ n es, files.foldl (batchStep lipa_max mpa_max) (n, es)
      = (n + (files.filter fun f => (classifyTable lipa_max mpa_max f.2).isOk).length,
         es ++ files.filterMap fun f =>
           match classifyTable lipa_max mpa_max f.2 with
           | Except.ok _ => none
           | Except.error e => some (f.1, e)) := by
  induction files with
  | nil => intro n es; simp
  | cons f fs ih =>
    intro n es
    rw [List.foldl_cons]
    cases hc : classifyTable lipa_max mpa_max f.2 with
    | ok v =>
      have hstep : batchStep lipa_max mpa_max (n, es) f = (n + 1, es) := by
        simp [batchStep, hc]
      rw [hstep, ih]
      refine congrArg₂ Prod.mk ?_ ?_
      · rw [List.filter_cons_of_pos (by rw [hc]; rfl), List.length_cons]
        omega
      · rw [List.filterMap_cons]
        have hred : (match classifyTable lipa_max mpa_max f.2 with
            | Except.ok _ => (none : Option (String × ClassifyError))
            | Except.error e => some (f.1, e)) = none := by
          rw [hc]
        rw [hred]
    | error e =>
      have hstep : batchStep lipa_max mpa_max (n, es) f = (n, es ++ [(f.1, e)]) := by
        simp [batchStep, hc]
      rw [hstep, ih]
      refine congrArg₂ Prod.mk ?_ ?_
      · rw [List.filter_cons_of_neg (by rw [hc]; exact Bool.false_ne_true)]
      · rw [List.filterMap_cons]
        have hred : (match classifyTable lipa_max mpa_max f.2 with
            | Except.ok _ => (none : Option (String × ClassifyError))
            | Except.error e2 => some (f.1, e2)) = some (f.1, e) := by
          rw [hc]
        rw [hred]
        simp

theorem intervals_duration_sum (rows : List CleanRow) :
    ((intervalsOf rows).map Interval.duration).sum = (rows.map CleanRow.duration).sum := by
  unfold intervalsOf
  rw [List.map_map]
  have h1 : (Interval.duration ∘ mkInterval)
      = fun g : List (CleanRow × Int) => (g.map fun p => p.1.duration).sum := rfl
  rw [h1, sum_over_groups, groupRuns_flatten]
  conv_rhs => rw [← pairedRows_map_fst rows]
  rw [List.map_map]
  rfl

theorem intervals_steps_sum (rows : List CleanRow) :
    ((intervalsOf rows).map Interval.steps).sum
      = (stepDiffs (rows.map fun r => r.steps)).sum := by
  unfold intervalsOf
  rw [List.map_map]
  have h1 : (Interval.steps ∘ mkInterval)
      = fun g : List (CleanRow × Int) => (g.map fun p => p.2).sum := rfl
  rw [h1, sum_over_groups, groupRuns_flatten, ← pairedRows_map_snd]

theorem classify_split_length (lipa_max mpa_max : ℚ) (files : List (String × InputTable)) :
    (files.filter fun f => (classifyTable lipa_max mpa_max f.2).isOk).length
      + (files.filterMap fun f =>
          match classifyTable lipa_max mpa_max f.2 with
          | Except.ok _ => none
          | Except.error e => some (f.1, e)).length = files.length := by
  induction files with
  | nil => rfl
  | cons f fs ih =>
    cases hc : classifyTable lipa_max mpa_max f.2 with
    | ok v =>
      have hfil : ((f :: fs).filter fun g => (classifyTable lipa_max mpa_max g.2).isOk)
          = f :: (fs.filter fun g => (classifyTable lipa_max mpa_max g.2).isOk) :=
        List.filter_cons_of_pos (by rw [hc]; rfl)
      have hfm : ((f :: fs).filterMap fun g =>
            match classifyTable lipa_max mpa_max g.2 with
            | Except.ok _ => none
            | Except.error e => some (g.1, e))
          = fs.filterMap fun g =>
              match classifyTable lipa_max mpa_max g.2 with
              | Except.ok _ => none
              | Except.error e => some (g.1, e) := by
        rw [List.filterMap_cons]
        have hred : (match classifyTable lipa_max mpa_max f.2 with
            | Except.ok _ => (none : Option (String × ClassifyError))
            | Except.error e => some (f.1, e)) = none := by
          rw [hc]
        rw [hred]
      rw [hfil, hfm, List.length_cons, List.length_cons]
      omega
    | error e =>
      have hfil : ((f :: fs).filter fun g => (classifyTable lipa_max mpa_max g.2).isOk)
          = fs.filter fun g => (classifyTable lipa_max mpa_max g.2).isOk :=
        List.filter_cons_of_neg (by rw [hc]; exact Bool.false_ne_true)
      have hfm : ((f :: fs).filterMap fun g =>
            match classifyTable lipa_max mpa_max g.2 with
            | Except.ok _ => none
            | Except.error e2 => some (g.1, e2))
          = (f.1, e) :: fs.filterMap fun g =>
              match classifyTable lipa_max mpa_max g.2 with
              | Except.ok _ => none
              | Except.error e2 => some (g.1, e2) := by
        rw [List.filterMap_cons]
        have hred : (match classifyTable lipa_max mpa_max f.2 with
            | Except.ok _ => (none : Option (String × ClassifyError))
            | Except.error e2 => some (f.1, e2)) = some (f.1, e) := by
          rw [hc]
        rw [hred]
      rw [hfil, hfm, List.length_cons, List.length_cons]
      omega

/-- C1: every output interval's Behaviour and Activity Category labels equal
the reference classification: event type 0 gives SED, 1 gives STAND, a code
outside 0, 1, 2 gives UNKNOWN, each with empty Activity Category; for event
type 2 the three bands are LIPA/LPA strictly below the first threshold,
MPA/MIVA between the thresholds inclusive on both ends, VPA/HPA strictly
above the second threshold. -/
theorem behaviour_activity_classification (lipa_max mpa_max : ℚ)
    (hth : lipa_max ≤ mpa_max) (rows : List CleanRow) (iv : Interval)
    (_hiv : iv ∈ intervalsOf rows) :
    (iv.eventType = 0 →
      (classifyInterval lipa_max mpa_max iv).behaviour = "SED" ∧
      (classifyInterval lipa_max mpa_max iv).activityCategory = "") ∧
    (iv.eventType = 1 →
      (classifyInterval lipa_max mpa_max iv).behaviour = "STAND" ∧
      (classifyInterval lipa_max mpa_max iv).activityCategory = "") ∧
    (iv.eventType ≠ 0 → iv.eventType ≠ 1 → iv.eventType ≠ 2 →
      (classifyInterval lipa_max mpa_max iv).behaviour = "UNKNOWN" ∧
      (classifyInterval lipa_max mpa_max iv).activityCategory = "") ∧
    (iv.eventType = 2 →
      ((classifyInterval lipa_max mpa_max iv).stepsPerMinute < lipa_max →
        (classifyInterval lipa_max mpa_max iv).behaviour = "LIPA" ∧
        (classifyInterval lipa_max mpa_max iv).activityCategory = "LPA") ∧
      (lipa_max ≤ (classifyInterval lipa_max mpa_max iv).stepsPerMinute ∧
          (classifyInterval lipa_max mpa_max iv).stepsPerMinute ≤ mpa_max →
        (classifyInterval lipa_max mpa_max iv).behaviour = "MPA" ∧
        (classifyInterval lipa_max mpa_max iv).activityCategory = "MIVA") ∧
      (mpa_max < (classifyInterval lipa_max mpa_max iv).stepsPerMinute →
        (classifyInterval lipa_max mpa_max iv).behaviour = "VPA" ∧
        (classifyInterval lipa_max mpa_max iv).activityCategory = "HPA")) := by
  refine ⟨?_, ?_, ?_, ?_⟩
  · intro h0
    constructor
    · show behaviour_label lipa_max mpa_max iv.eventType (stepsPerMinute iv) = "SED"
      rw [h0]
      exact behaviour_label_sed _ _ _
    · show activity_category lipa_max mpa_max iv.eventType (stepsPerMinute iv) = ""
      rw [h0]
      exact activity_category_empty _ _ _ _ (by norm_num)
  · intro h1
    constructor
    · show behaviour_label lipa_max mpa_max iv.eventType (stepsPerMinute iv) = "STAND"
      rw [h1]
      exact behaviour_label_stand _ _ _
    · show activity_category lipa_max mpa_max iv.eventType (stepsPerMinute iv) = ""
      rw [h1]
      exact activity_category_empty _ _ _ _ (by norm_num)
  · intro h0 h1 h2
    exact ⟨behaviour_label_unknown _ _ _ _ h0 h1 h2,
      activity_category_empty _ _ _ _ h2⟩
  · intro h2
    refine ⟨fun hlow => ?_, fun hmid => ?_, fun hhigh => ?_⟩
    · constructor
      · show behaviour_label lipa_max mpa_max iv.eventType (stepsPerMinute iv) = "LIPA"
        rw [h2]
        exact behaviour_label_lipa _ _ _ hlow
      · show activity_category lipa_max mpa_max iv.eventType (stepsPerMinute iv) = "LPA"
        rw [h2]
        exact activity_category_lpa _ _ _ hlow
    · constructor
      · show behaviour_label lipa_max mpa_max iv.eventType (stepsPerMinute iv) = "MPA"
        rw [h2]
        exact behaviour_label_mpa _ _ _ hmid.1 hmid.2
      · show activity_category lipa_max mpa_max iv.eventType (stepsPerMinute iv) = "MIVA"
        rw [h2]
        exact activity_category_miva _ _ _ hmid.1 hmid.2
    · constructor
      · show behaviour_label lipa_max mpa_max iv.eventType (stepsPerMinute iv) = "VPA"
        rw [h2]
        exact behaviour_label_vpa _ _ _ hth hhigh
      · show activity_category lipa_max mpa_max iv.eventType (stepsPerMinute iv) = "HPA"
        rw [h2]
        exact activity_category_hpa _ _ _ hth hhigh

/-- Witness for C1: on the example data, the first interval has event type
2 and steps per minute 20 below the threshold 100, so it is labelled
LIPA with activity category LPA. -/
theorem behaviour_activity_classification_witness :
    (classifyInterval 100 130 ⟨0, 30, 2, 5, 5⟩).behaviour = "LIPA" ∧
    (classifyInterval 100 130 ⟨0, 30, 2, 5, 5⟩).activityCategory = "LPA" :=
  ((behaviour_activity_classification 100 130 (by norm_num) exampleRows
      ⟨0, 30, 2, 5, 5⟩ (by with_unfolding_all decide)).2.2.2
    (by norm_num)).1 (by with_unfolding_all decide)

/-- C2: the number of output intervals equals the number of maximal runs of
equal consecutive event type, the run lengths sum to the cleaned length (the
runs partition the cleaned sequence), and the intervals appear in run
order (flattening the runs in order reproduces the cleaned sequence). -/
theorem grouping_partitions_cleaned (lipa_max mpa_max : ℚ) (rows : List CleanRow) :
    (classifyCleaned lipa_max mpa_max rows).length
      = runCount (rows.map fun r => r.eventType) ∧
    ((groupRuns (pairedRows rows)).map List.length).sum = rows.length ∧
    ((groupRuns (pairedRows rows)).flatten).map Prod.fst = rows := by
  refine ⟨?_, ?_, ?_⟩
  · unfold classifyCleaned intervalsOf
    rw [List.length_map, List.length_map, groupRuns_length]
    conv_rhs => rw [← pairedRows_map_fst rows]
    rw [List.map_map]
    rfl
  · rw [← List.length_flatten, groupRuns_flatten]
    unfold pairedRows
    rw [List.length_zip, stepDiffs_length, List.length_map, Nat.min_self]
  · rw [groupRuns_flatten]
    exact pairedRows_map_fst rows

/-- C3: the per-row step delta over the cleaned sequence is the clamped
forward difference of the cumulative step count, the first delta is 0, no
delta is negative, and there is one delta per cleaned row. -/
theorem step_delta_clamped (raw : List RawRow) (i : Nat) :
    (i + 1 < (cleanRows raw).length →
      (stepDiffs ((cleanRows raw).map fun r => r.steps)).getD (i + 1) 0
        = max 0 (((cleanRows raw).map fun r => r.steps).getD (i + 1) 0
            - ((cleanRows raw).map fun r => r.steps).getD i 0)) ∧
    (cleanRows raw ≠ [] →
      (stepDiffs ((cleanRows raw).map fun r => r.steps)).headD 1 = 0) ∧
    (∀ x ∈ stepDiffs ((cleanRows raw).map fun r => r.steps), 0 ≤ x) ∧
    (stepDiffs ((cleanRows raw).map fun r => r.steps)).length
      = (cleanRows raw).length := by
  refine ⟨?_, ?_, stepDiffs_nonneg _, ?_⟩
  · intro h
    apply stepDiffs_getD
    rw [List.length_map]
    exact h
  · intro h
    apply stepDiffs_headD
    intro hmapnil
    exact h (List.map_eq_nil_iff.mp hmapnil)
  · rw [stepDiffs_length, List.length_map]

/-- Witness for C3: on the example data the second delta is the clamped
difference 5 and the first delta is 0. -/
theorem step_delta_clamped_witness :
    (stepDiffs ((cleanRows exampleRaw).map fun r => r.steps)).getD 1 0
      = max 0 (((cleanRows exampleRaw).map fun r => r.steps).getD 1 0
          - ((cleanRows exampleRaw).map fun r => r.steps).getD 0 0) ∧
    (stepDiffs ((cleanRows exampleRaw).map fun r => r.steps)).headD 1 = 0 :=
  ⟨(step_delta_clamped exampleRaw 0).1 (by with_unfolding_all decide),
   (step_delta_clamped exampleRaw 0).2.1 (by with_unfolding_all decide)⟩

/-- C4: each output interval aggregates its run as first timestamp, summed
duration, first (shared) event type, last cumulative step count and summed
step deltas, and the derived fields satisfy the stated equations (with
division by a zero denominator mapped to 0, which rational division by zero
also yields). -/
theorem interval_run_aggregation (lipa_max mpa_max : ℚ) (rows : List CleanRow)
    (g : List (CleanRow × Int)) (hg : g ∈ groupRuns (pairedRows rows)) :
    mkInterval g ∈ intervalsOf rows ∧
    (∃ p0 t, g = p0 :: t ∧ (mkInterval g).time = p0.1.time ∧
      (mkInterval g).eventType = p0.1.eventType) ∧
    (mkInterval g).duration = (g.map fun p => p.1.duration).sum ∧
    (mkInterval g).steps = (g.map fun p => p.2).sum ∧
    (∃ pl, g.getLast? = some pl ∧ (mkInterval g).lastSteps = pl.1.steps) ∧
    (∀ x ∈ g, ∀ y ∈ g, x.1.eventType = y.1.eventType) ∧
    (classifyInterval lipa_max mpa_max (mkInterval g)).doubledSteps
      = (classifyInterval lipa_max mpa_max (mkInterval g)).steps * 2 ∧
    (classifyInterval lipa_max mpa_max (mkInterval g)).minutes
      = roundTo 3 ((classifyInterval lipa_max mpa_max (mkInterval g)).eventDuration / 60) ∧
    (classifyInterval lipa_max mpa_max (mkInterval g)).stepsPerMinute
      = roundTo 2 (((classifyInterval lipa_max mpa_max (mkInterval g)).doubledSteps : ℚ)
          / (classifyInterval lipa_max mpa_max (mkInterval g)).minutes) := by
  have hne : g ≠ [] := groupRuns_ne_nil _ g hg
  refine ⟨List.mem_map_of_mem _ hg, ?_, rfl, rfl, ?_, ?_, rfl, rfl,
    stepsPerMinute_eq_round_div (mkInterval g)⟩
  · cases g with
    | nil => exact absurd rfl hne
    | cons p0 t => exact ⟨p0, t, rfl, rfl, rfl⟩
  · refine ⟨g.getLast hne, List.getLast?_eq_getLast g hne, ?_⟩
    show (g.getLastD dfltPair).1.steps = _
    rw [List.getLastD_eq_getLast?, List.getLast?_eq_getLast g hne, Option.getD_some]
  · intro x hx y hy
    exact groupRuns_key_const _ g hg x hx y hy

/-- Witness for C4: the first run of the example data aggregates to the
interval with start time 0, duration 30, event type 2, last steps 5 and
step total 5, which is among the produced intervals. -/
theorem interval_run_aggregation_witness :
    mkInterval [(⟨0, 10, 2, 0⟩, 0), (⟨10, 20, 2, 5⟩, 5)] ∈ intervalsOf exampleRows :=
  (interval_run_aggregation 100 130 exampleRows
    [(⟨0, 10, 2, 0⟩, 0), (⟨10, 20, 2, 5⟩, 5)] (by with_unfolding_all decide)).1

/-- C5: every output steps-per-minute value is a well-defined (finite)
rational that is nonnegative, for every raw input; the division-by-zero and
not-a-number cases are mapped to 0 before rounding. -/
theorem spm_always_finite_nonneg (lipa_max mpa_max : ℚ) (raw : List RawRow) :
    ∀ o ∈ grouped_behavior_with_totals lipa_max mpa_max raw, 0 ≤ o.stepsPerMinute := by
  intro o ho
  unfold grouped_behavior_with_totals classifyCleaned at ho
  rcases List.mem_map.mp ho with ⟨iv, hiv, rfl⟩
  show 0 ≤ stepsPerMinute iv
  exact stepsPerMinute_nonneg (interval_steps_nonneg _ iv hiv)
    (interval_duration_nonneg raw iv hiv)

/-- Witness for C5: the first output row of the example has steps per
minute 20, which is nonnegative. -/
theorem spm_always_finite_nonneg_witness :
    0 ≤ (⟨0, 30, "LIPA", 5, 10, 1 / 2, 20, "LPA"⟩ : OutRow).stepsPerMinute :=
  spm_always_finite_nonneg 100 130 exampleRaw _ (by with_unfolding_all decide)

/-- C6: cleaning keeps exactly the rows whose timestamp, duration and event
type parse and whose duration is positive, in their original order, with an
unparsable step count replaced by 0; dropped rows contribute to no
interval's duration sum. -/
theorem row_drop_policy (lipa_max mpa_max : ℚ) (raw : List RawRow) :
    cleanRows raw = (raw.filter keepRowSpec).map cleanOfSpec ∧
    ((grouped_behavior_with_totals lipa_max mpa_max raw).map fun o =>
        o.eventDuration).sum
      = ((raw.filter keepRowSpec).map fun r => r.duration.getD 0).sum ∧
    (∀ r ∈ raw, keepRowSpec r = true → cleanOfSpec r ∈ cleanRows raw) ∧
    (∀ r : RawRow, r.steps = none → (cleanOfSpec r).steps = 0) := by
  refine ⟨cleanRows_eq_filter_map raw, ?_, ?_, ?_⟩
  · have h1 : ((grouped_behavior_with_totals lipa_max mpa_max raw).map fun o =>
        o.eventDuration) = (intervalsOf (cleanRows raw)).map Interval.duration := by
      unfold grouped_behavior_with_totals classifyCleaned
      rw [List.map_map]
      rfl
    rw [h1, intervals_duration_sum, cleanRows_eq_filter_map, List.map_map]
    rfl
  · intro r hr hkeep
    rw [cleanRows_eq_filter_map]
    exact List.mem_map_of_mem _ (List.mem_filter.mpr ⟨hr, hkeep⟩)
  · intro r h
    show r.steps.getD 0 = 0
    rw [h]
    rfl

/-- Witness for C6: the first example row survives cleaning, and a row with
an unparsable step count gets step count 0. -/
theorem row_drop_policy_witness :
    cleanOfSpec ⟨some 0, some 10, some 2, some 0⟩ ∈ cleanRows exampleRaw ∧
    (cleanOfSpec ⟨some 0, some 1, some 2, none⟩).steps = 0 :=
  ⟨(row_drop_policy 100 130 exampleRaw).2.2.1 ⟨some 0, some 10, some 2, some 0⟩
      (by with_unfolding_all decide) (by with_unfolding_all decide),
   (row_drop_policy 100 130 exampleRaw).2.2.2 ⟨some 0, some 1, some 2, none⟩ rfl⟩

/-- C7 counterexample: an input with every required column present whose
single row is dropped by cleaning (zero rows survive) makes the classifier
return an empty result table, not raise an error. -/
theorem zero_survivor_returns_ok :
    cleanRows zeroSurvivorTable.rows = [] ∧
    classifyTable 100 130 zeroSurvivorTable = Except.ok [] :=
  ⟨by with_unfolding_all decide, by with_unfolding_all rfl⟩

/-- C7 amended: the classifier fails exactly when a required column is
absent; an input with all required columns and zero surviving rows returns
an empty result table. -/
theorem malformed_input_iff_missing_column (lipa_max mpa_max : ℚ) (tbl : InputTable) :
    ((classifyTable lipa_max mpa_max tbl).isOk = false ↔ allCols tbl = false) ∧
    (allCols tbl = true → cleanRows tbl.rows = [] →
      classifyTable lipa_max mpa_max tbl = Except.ok []) := by
  constructor
  · unfold classifyTable
    cases h : allCols tbl with
    | false => simp [h, Except.isOk, Except.toBool]
    | true => simp [h, Except.isOk, Except.toBool]
  · intro hcols hempty
    unfold classifyTable
    rw [if_pos hcols]
    unfold grouped_behavior_with_totals classifyCleaned intervalsOf pairedRows
    rw [hempty]
    rfl

/-- Witness for C7 amended: the zero-survivor table has all columns, cleans
to the empty row list, and classifies to the empty result. -/
theorem malformed_input_iff_missing_column_witness :
    classifyTable 100 130 zeroSurvivorTable = Except.ok [] :=
  (malformed_input_iff_missing_column 100 130 zeroSurvivorTable).2 rfl
    (by with_unfolding_all decide)

/-- C8: the batch loop counts exactly the successfully classified files,
records each failure against its file name in encounter order, never stops
early (successes and failures account for every file), and reports at most
the first 10 failures. -/
theorem batch_driver_isolates_failures (lipa_max mpa_max : ℚ)
    (files : List (String × InputTable)) :
    (runBatch lipa_max mpa_max files).1
      = (files.filter fun f => (classifyTable lipa_max mpa_max f.2).isOk).length ∧
    (runBatch lipa_max mpa_max files).2
      = (files.filterMap fun f =>
          match classifyTable lipa_max mpa_max f.2 with
          | Except.ok _ => none
          | Except.error e => some (f.1, e)) ∧
    (runBatch lipa_max mpa_max files).1 + ((runBatch lipa_max mpa_max files).2).length
      = files.length ∧
    (reportedFailures (runBatch lipa_max mpa_max files).2).length ≤ 10 ∧
    reportedFailures (runBatch lipa_max mpa_max files).2
      = (runBatch lipa_max mpa_max files).2.take 10 := by
  have hr : runBatch lipa_max mpa_max files
      = ((files.filter fun f => (classifyTable lipa_max mpa_max f.2).isOk).length,
         files.filterMap fun f =>
           match classifyTable lipa_max mpa_max f.2 with
           | Except.ok _ => none
           | Except.error e => some (f.1, e)) := by
    unfold runBatch
    rw [runBatch_loop]
    simp
  rw [hr]
  refine ⟨rfl, rfl, classify_split_length lipa_max mpa_max files, ?_, rfl⟩
  show (List.take 10 _).length ≤ 10
  rw [List.length_take]
  exact Nat.min_le_left _ _

/-- C9: on the example cleaned rows with thresholds 100 and 130 the
classifier produces exactly two intervals with the stated durations,
derived fields and labels. -/
theorem end_to_end_example :
    (classifyCleaned 100 130 exampleRows).length = 2 ∧
    (classifyCleaned 100 130 exampleRows).map (fun o => o.eventDuration) = [30, 5] ∧
    (classifyCleaned 100 130 exampleRows).map (fun o => o.behaviour) = ["LIPA", "SED"] ∧
    (classifyCleaned 100 130 exampleRows).map (fun o => o.activityCategory) = ["LPA", ""] ∧
    (classifyCleaned 100 130 exampleRows).map (fun o => o.minutes) = [1 / 2, 83 / 1000] ∧
    (classifyCleaned 100 130 exampleRows).map (fun o => o.doubledSteps) = [10, 0] ∧
    (classifyCleaned 100 130 exampleRows).map (fun o => o.stepsPerMinute) = [20, 0] ∧
    (intervalsOf exampleRows).map (fun iv => iv.eventType) = [2, 0] := by
  set_option maxRecDepth 8000 in with_unfolding_all decide

/-- C10: grouping conserves totals: the interval durations sum to the
cleaned rows' durations, and the interval step totals sum to the clamped
per-row step deltas. -/
theorem grouping_conserves_totals (rows : List CleanRow) :
    ((intervalsOf rows).map Interval.duration).sum = (rows.map CleanRow.duration).sum ∧
    ((intervalsOf rows).map Interval.steps).sum
      = (stepDiffs (rows.map fun r => r.steps)).sum :=
  ⟨intervals_duration_sum rows, intervals_steps_sum rows⟩

end SportsCSV
